import Mathlib

/-!
Verification of the clang argument-classification engine of this repository
(`src/compiler/clang.rs`).  The clang-specific rule table `ARGS` is embedded
directly from the source.  The shared gcc-family matcher and outcome builder
(`gcc::parse_arguments` and the argument machinery it relies on) are not part
of the source tree given here, so they are modelled from the specification
(sections 4.1 to 4.4), constrained by the unit tests that live in
`src/compiler/clang.rs`.
-/

namespace Sccache

/-- Source language of the input file (`Language` in `compiler/c.rs`). -/
inductive Language
  | c
  | cxx
  | objc
  | objcxx
deriving DecidableEq, Repr

/-- Diagnostics-color tri-state (`ColorMode` in the source). -/
inductive ColorMode
  | on
  | off
  | auto
deriving DecidableEq, Repr

/-- Semantic tags attached to matched rules (`gcc::ArgData` constructors that
the clang table and the modelled gcc table use). -/
inductive ArgData
  | PassThrough
  | XClang
  | ExtraHashFile
  | TooHardFlag
  | TooHard
  | DiagnosticsColorFlag
  | NoDiagnosticsColorFlag
  | ProfileGenerate
  | PreprocessorArgumentFlag
  | PreprocessorArgument
  | PreprocessorArgumentPath
  | DoCompilation
  | Output
deriving DecidableEq, Repr

/-- Value shapes of argument rules (`ArgDisposition` in the argument
machinery): value in the next token, value concatenated directly, value either
concatenated or in the next token, and value either in the next token or
concatenated after `=`. -/
inductive ArgDisposition
  | separated
  | concatenated
  | canBeSeparated
  | canBeConcatenatedEq
deriving DecidableEq, Repr

/-- One argument-matching rule: a flag with no value (`flag!`) or a
value-taking flag (`take_arg!`). -/
inductive Rule
  | flag (s : String) (d : ArgData)
  | takeArg (s : String) (disp : ArgDisposition) (d : ArgData)
deriving DecidableEq, Repr

/-- The literal spelling a rule matches. -/
def Rule.spelling : Rule → String
  | .flag s _ => s
  | .takeArg s _ _ => s

/-- The clang-specific rule table, transcribed entry by entry from
`counted_array!(pub static ARGS: ...)` in `src/compiler/clang.rs`. -/
def ARGS : List Rule := [
  .takeArg "--serialize-diagnostics" .separated .PassThrough,
  .takeArg "--target" .separated .PassThrough,
  .takeArg "-Xclang" .separated .XClang,
  .takeArg "-add-plugin" .separated .PassThrough,
  .flag "-fcolor-diagnostics" .DiagnosticsColorFlag,
  .flag "-fcxx-modules" .TooHardFlag,
  .takeArg "-fdebug-compilation-dir" .separated .PassThrough,
  .flag "-fmodules" .TooHardFlag,
  .flag "-fno-color-diagnostics" .NoDiagnosticsColorFlag,
  .takeArg "-fplugin" .canBeConcatenatedEq .ExtraHashFile,
  .flag "-fprofile-instr-generate" .ProfileGenerate,
  .takeArg "-fprofile-instr-use" .concatenated .TooHard,
  .takeArg "-gcc-toolchain" .separated .PassThrough,
  .takeArg "-include-pch" .canBeSeparated .PreprocessorArgumentPath,
  .takeArg "-load" .separated .ExtraHashFile,
  .takeArg "-mllvm" .separated .PassThrough,
  .takeArg "-target" .separated .PassThrough,
  .flag "-verify" .PreprocessorArgumentFlag
]

/-- Modelled from the spec: the gcc-family base rule table (`gcc::ARGS`) is
not in the source tree; these are the entries the specification's examples
exercise (`-c`, `-o`, `-I`, `-include`, `-arch`). -/
def gccARGS : List Rule := [
  .flag "-c" .DoCompilation,
  .takeArg "-o" .separated .Output,
  .takeArg "-I" .canBeSeparated .PreprocessorArgumentPath,
  .takeArg "-include" .canBeSeparated .PreprocessorArgument,
  .takeArg "-arch" .separated .PassThrough
]

/-- Modelled from the spec: a token "looks like a flag" when it starts with
the `-` marker character. -/
def flagLike (t : String) : Bool :=
  match t.data with
  | '-' :: _ => true
  | _ => false

/-- Character-list prefix test (same result as `List.isPrefixOf`). -/
def pfx : List Char → List Char → Bool
  | [], _ => true
  | _ :: _, [] => false
  | a :: as, b :: bs => a == b && pfx as bs

/-- Modelled from the spec: whether a rule is compatible with a token —
exact equality for flag and next-token shapes, literal-prefix match for
concatenated shapes (with the required `=` separator when the shape demands
one). -/
def compat (t : String) : Rule → Bool
  | .flag s _ => s.data == t.data
  | .takeArg s .separated _ => s.data == t.data
  | .takeArg s .concatenated _ => pfx s.data t.data
  | .takeArg s .canBeSeparated _ => pfx s.data t.data
  | .takeArg s .canBeConcatenatedEq _ =>
      s.data == t.data || pfx (s.data ++ ['=']) t.data

/-- Modelled from the spec: rule selection keeps the compatible rule with the
longest literal spelling; on equal length the earlier table entry (the
dialect-specific table comes first) wins. -/
def pickBest (t : String) (acc : Option Rule) (r : Rule) : Option Rule :=
  if compat t r then
    match acc with
    | none => some r
    | some b => if b.spelling.data.length < r.spelling.data.length then some r else some b
  else acc

/-- Modelled from the spec: resolve a token against the effective rule table
(clang-specific rules layered over the gcc-family base table). -/
def findRule (t : String) : Option Rule :=
  (ARGS ++ gccARGS).foldl (pickBest t) none

/-- A token, dropping its first `n` characters (used to split a concatenated
value off its flag). -/
def strDrop (t : String) (n : Nat) : String :=
  String.mk (t.data.drop n)

/-- Result of resolving one token against the rule tables. -/
inductive TokClass
  | raw
  | unknown
  | flagRes (sp : String) (d : ArgData)
  | hasVal (sp : String) (v : String) (d : ArgData)
  | needsVal (sp : String) (d : ArgData)
deriving DecidableEq, Repr

/-- Modelled from the spec: how a matched rule consumes its value for a given
token: no value (flag), value still to be read from the next token, or value
already present in the token itself. -/
def matchShape (t : String) : Rule → TokClass
  | .flag s d => .flagRes s d
  | .takeArg s .separated d => .needsVal s d
  | .takeArg s .concatenated d => .hasVal s (strDrop t s.data.length) d
  | .takeArg s .canBeSeparated d =>
      if s.data == t.data then .needsVal s d else .hasVal s (strDrop t s.data.length) d
  | .takeArg s .canBeConcatenatedEq d =>
      if s.data == t.data then .needsVal s d
      else .hasVal s (strDrop t (s.data.length + 1)) d

/-- Modelled from the spec: classify a single token — a bare (non-flag) token,
an unrecognized flag, or a rule match together with its value shape. -/
def classifyTok (t : String) : TokClass :=
  if flagLike t then
    match findRule t with
    | none => .unknown
    | some r => matchShape t r
  else .raw

/-- The characters after the last `.` of a file name, if any. -/
def lastExt : List Char → Option (List Char)
  | [] => none
  | c :: rest =>
    match lastExt rest with
    | some e => some e
    | none => if c == '.' then some rest else none

/-- Modelled from the spec: the recognized source-file extensions (the
`Language::from_file_name` behaviour of `compiler/c.rs`). -/
def langOfExt (e : List Char) : Option Language :=
  if e == "c".data then some .c
  else if e == "cc".data then some .cxx
  else if e == "cpp".data then some .cxx
  else if e == "cxx".data then some .cxx
  else if e == "m".data then some .objc
  else if e == "mm".data then some .objcxx
  else none

/-- Modelled from the spec: infer the source language from the file
extension. -/
def langOf (t : String) : Option Language :=
  (lastExt t.data).bind langOfExt

/-- Replace the extension of a file name (used for the default object-file
output path, mirroring `Path::with_extension`). -/
def replaceExt (t : String) (e : String) : String :=
  let r := t.data.reverse
  match r.dropWhile (fun c => !(c == '.')) with
  | [] => String.mk (t.data ++ '.' :: e.data)
  | _ :: rest => String.mk (rest.reverse ++ '.' :: e.data)

/-- The canonical structured result (`ParsedArguments` in `compiler/c.rs`). -/
structure ParsedArguments where
  input : String
  language : Language
  outputs : List (String × String)
  preprocessorArgs : List String
  commonArgs : List String
  extraHashFiles : List String
  colorMode : ColorMode
  profileGenerate : Bool
deriving DecidableEq, Repr

/-- The classifier outcome (`CompilerArguments` in the source). -/
inductive CompilerArguments
  | ok (pa : ParsedArguments)
  | cannotCache (reason : String) (detail : Option String)
  | notCompilation
deriving DecidableEq, Repr

/-- Accumulator state of the outcome builder while scanning tokens. -/
structure ParseState where
  inputLang : Option (String × Language)
  compilation : Bool
  outputArg : Option String
  preprocessorArgs : List String
  commonArgs : List String
  extraHashFiles : List String
  colorMode : ColorMode
  profileGenerate : Bool
deriving DecidableEq, Repr

/-- The empty accumulator state. -/
def initState : ParseState :=
  { inputLang := none, compilation := false, outputArg := none,
    preprocessorArgs := [], commonArgs := [], extraHashFiles := [],
    colorMode := .auto, profileGenerate := false }

/-- Modelled from the spec: normalization of a flag-plus-value unit — a
two-character spelling is emitted concatenated (`-I include` becomes
`-Iinclude`), a longer spelling is emitted as two tokens. -/
def normTok (sp v : String) : List String :=
  if sp.data.length == 2 then [sp ++ v] else [sp, v]

/-- Modelled from the spec: effect of a matched no-value flag on the
accumulator (short-circuiting force-uncacheable flags return the error). -/
def applyFlag (s : ParseState) (sp : String) (d : ArgData) :
    Except (String × Option String) ParseState :=
  match d with
  | .TooHardFlag => .error (sp, none)
  | .TooHard => .error (sp, none)
  | .DoCompilation => .ok { s with compilation := true }
  | .DiagnosticsColorFlag => .ok { s with colorMode := .on }
  | .NoDiagnosticsColorFlag => .ok { s with colorMode := .off }
  | .PreprocessorArgumentFlag =>
      .ok { s with preprocessorArgs := s.preprocessorArgs ++ [sp] }
  | .ProfileGenerate =>
      .ok { s with profileGenerate := true, commonArgs := s.commonArgs ++ [sp] }
  | _ => .ok { s with commonArgs := s.commonArgs ++ [sp] }

/-- Modelled from the spec: effect of a matched value-taking flag on the
accumulator.  `norm` is the normalized token sequence of the unit. -/
def applyVal (s : ParseState) (sp v : String) (norm : List String) (d : ArgData) :
    Except (String × Option String) ParseState :=
  match d with
  | .TooHard => .error (sp, none)
  | .TooHardFlag => .error (sp, none)
  | .Output => .ok { s with outputArg := some v }
  | .PreprocessorArgument =>
      .ok { s with preprocessorArgs := s.preprocessorArgs ++ norm }
  | .PreprocessorArgumentPath =>
      .ok { s with preprocessorArgs := s.preprocessorArgs ++ norm }
  | .ExtraHashFile =>
      .ok { s with commonArgs := s.commonArgs ++ norm,
                   extraHashFiles := s.extraHashFiles ++ [v] }
  | _ => .ok { s with commonArgs := s.commonArgs ++ norm }

/-- Modelled from the spec (section 4.3): a successfully reinterpreted
wrapper-forward unit appends its original raw tokens `toks` verbatim to the
common-arguments bucket and additionally applies the effect of the inner
flag (extra hash file, preprocessor-only marking, color tri-state, profile
marking); a force-uncacheable inner flag short-circuits. -/
def xclangApply (s : ParseState) (toks : List String) (sp : String)
    (d : ArgData) (val : Option String) :
    Except (String × Option String) ParseState :=
  match d with
  | .TooHardFlag => .error (sp, none)
  | .TooHard => .error (sp, none)
  | .PreprocessorArgumentFlag =>
      .ok { s with commonArgs := s.commonArgs ++ toks,
                   preprocessorArgs := s.preprocessorArgs ++ toks }
  | .PreprocessorArgument =>
      .ok { s with commonArgs := s.commonArgs ++ toks,
                   preprocessorArgs := s.preprocessorArgs ++ toks }
  | .PreprocessorArgumentPath =>
      .ok { s with commonArgs := s.commonArgs ++ toks,
                   preprocessorArgs := s.preprocessorArgs ++ toks }
  | .ExtraHashFile =>
      .ok { s with commonArgs := s.commonArgs ++ toks,
                   extraHashFiles := s.extraHashFiles ++ val.toList }
  | .DiagnosticsColorFlag =>
      .ok { s with commonArgs := s.commonArgs ++ toks, colorMode := .on }
  | .NoDiagnosticsColorFlag =>
      .ok { s with commonArgs := s.commonArgs ++ toks, colorMode := .off }
  | .ProfileGenerate =>
      .ok { s with commonArgs := s.commonArgs ++ toks, profileGenerate := true }
  | _ => .ok { s with commonArgs := s.commonArgs ++ toks }

/-- Modelled from the spec (section 4.4): finish the scan — a non-compile
invocation is routed away, a compile without an input file cannot be cached,
otherwise the structured result is produced with the object output mapped to
the explicit `-o` value or to the input with its extension replaced. -/
def finish (s : ParseState) : CompilerArguments :=
  if s.compilation then
    match s.inputLang with
    | none => .cannotCache "no input file" none
    | some (i, l) =>
        .ok { input := i, language := l,
              outputs := [("obj", s.outputArg.getD (replaceExt i "o"))],
              preprocessorArgs := s.preprocessorArgs,
              commonArgs := s.commonArgs,
              extraHashFiles := s.extraHashFiles,
              colorMode := s.colorMode,
              profileGenerate := s.profileGenerate }
  else .notCompilation

/-- Modelled from the spec (sections 4.2 and 4.3): the token scan.  One
logical unit is consumed per step: a bare token becomes the input file, an
unrecognized flag goes to the common bucket, matched rules apply their tag,
and the `-Xclang` wrapper reinterprets its value (requiring a repeated
wrapper for a multi-token inner argument). -/
def loop (args : List String) (s : ParseState) : CompilerArguments :=
  match args with
  | [] => finish s
  | t :: rest =>
    match classifyTok t with
    | .raw =>
        if s.inputLang.isSome then .cannotCache "multiple input files" none
        else
          match langOf t with
          | none => .cannotCache "unsupported source language" none
          | some l => loop rest { s with inputLang := some (t, l) }
    | .unknown => loop rest { s with commonArgs := s.commonArgs ++ [t] }
    | .flagRes sp d =>
        match applyFlag s sp d with
        | .error e => .cannotCache e.1 e.2
        | .ok s' => loop rest s'
    | .hasVal sp v d =>
        match applyVal s sp v (normTok sp v) d with
        | .error e => .cannotCache e.1 e.2
        | .ok s' => loop rest s'
    | .needsVal sp d =>
      match rest with
      | [] => .cannotCache "argument parse" (some "Unexpected end of args")
      | v :: rest₂ =>
        match d with
        | .XClang =>
          match classifyTok v with
          | .raw => .cannotCache ("Can't handle Raw arguments with " ++ sp) none
          | .unknown =>
              .cannotCache ("Can't handle UnknownFlag arguments with " ++ sp) none
          | .flagRes sp' d' =>
              match xclangApply s [sp, v] sp' d' none with
              | .error e => .cannotCache e.1 e.2
              | .ok s' => loop rest₂ s'
          | .hasVal sp' v' d' =>
              match xclangApply s [sp, v] sp' d' (some v') with
              | .error e => .cannotCache e.1 e.2
              | .ok s' => loop rest₂ s'
          | .needsVal sp' d' =>
            match rest₂ with
            | [] => .cannotCache "argument parse" (some "Unexpected end of args")
            | x :: rest₃ =>
              if x.data == sp.data then
                match rest₃ with
                | [] => .cannotCache "argument parse" (some "Unexpected end of args")
                | w :: rest₄ =>
                    match xclangApply s [sp, v, x, w] sp' d' (some w) with
                    | .error e => .cannotCache e.1 e.2
                    | .ok s' => loop rest₄ s'
              else
                .cannotCache "argument parse" (some ("Expected " ++ sp ++ " argument"))
        | _ =>
            match applyVal s sp v (normTok sp v) d with
            | .error e => .cannotCache e.1 e.2
            | .ok s' => loop rest₂ s'

/-- `Clang::parse_arguments` from `src/compiler/clang.rs`: classify a raw
argument list against the layered clang and gcc rule tables.  The working
directory takes no part in the classification itself. -/
def parseArguments (args : List String) (_cwd : String) : CompilerArguments :=
  loop args initState

/-- Whether a token literally appears in one of the buckets of the result
that the no-silent-drop invariant enumerates: input file, output map,
preprocessor arguments, common arguments. -/
def InBuckets (t : String) (pa : ParsedArguments) : Prop :=
  pa.input = t ∨ (∃ p ∈ pa.outputs, p.2 = t) ∨
    t ∈ pa.preprocessorArgs ∨ t ∈ pa.commonArgs

/-- The effect of a wrapper-forwarded inner flag on the structured result:
an extra hash file is recorded, preprocessor-only units are replayed in the
preprocessor bucket, and the color or profile markers are set. -/
def XEffect (d : ArgData) (val : Option String) (toks : List String)
    (s s' : ParseState) : Prop :=
  (d = .ExtraHashFile → s'.extraHashFiles = s.extraHashFiles ++ val.toList) ∧
  ((d = .PreprocessorArgumentFlag ∨ d = .PreprocessorArgument ∨
      d = .PreprocessorArgumentPath) →
    s'.preprocessorArgs = s.preprocessorArgs ++ toks) ∧
  (d = .DiagnosticsColorFlag → s'.colorMode = .on) ∧
  (d = .NoDiagnosticsColorFlag → s'.colorMode = .off) ∧
  (d = .ProfileGenerate → s'.profileGenerate = true)

/-- Whether a token resolves to one of the two color-diagnostics flags. -/
def isColorTok (t : String) : Bool :=
  match classifyTok t with
  | .flagRes _ .DiagnosticsColorFlag => true
  | .flagRes _ .NoDiagnosticsColorFlag => true
  | _ => false

/-- One consumed logical unit of the token stream: the raw tokens it spans
and the normalized tokens it contributes to a bucket (empty for marker
flags and for the input and output units, which are recorded in dedicated
fields). -/
structure UnitRec where
  raw : List String
  norm : List String

/-- A consumed unit is accounted for in the structured result: its
contribution is an infix of the common or preprocessor bucket, or it is the
input-file unit, an output unit reflected by the output map (a later
occurrence may have superseded its value), the compilation marker, or a
color flag reflected in the non-default tri-state. -/
def RepOf (pa : ParsedArguments) (u : UnitRec) : Prop :=
  (u.norm ≠ [] ∧ (u.norm <:+: pa.commonArgs ∨ u.norm <:+: pa.preprocessorArgs))
  ∨ (∃ t, u.raw = [t] ∧ pa.input = t)
  ∨ (∃ t, t ∈ u.raw ∧
      (∃ sp, classifyTok t = .needsVal sp .Output ∨
        ∃ v, classifyTok t = .hasVal sp v .Output) ∧
      ∃ w, ("obj", w) ∈ pa.outputs)
  ∨ (∃ t sp, u.raw = [t] ∧ classifyTok t = .flagRes sp .DoCompilation)
  ∨ (∃ t sp d, u.raw = [t] ∧ classifyTok t = .flagRes sp d ∧
      (d = .DiagnosticsColorFlag ∨ d = .NoDiagnosticsColorFlag) ∧
      pa.colorMode ≠ .auto)

/-- Growth relation between accumulator states along a scan: buckets only
receive appended tokens, a recorded input file stays recorded, and a
non-default color tri-state never reverts to the default. -/
def StateLe (s s' : ParseState) : Prop :=
  (∃ n, s'.commonArgs = s.commonArgs ++ n) ∧
  (∃ n, s'.preprocessorArgs = s.preprocessorArgs ++ n) ∧
  (∀ p, s.inputLang = some p → s'.inputLang = some p) ∧
  (s.colorMode ≠ .auto → s'.colorMode ≠ .auto)

/-- Relation between an intermediate accumulator state and the final
structured result of a successful scan. -/
def PaFrom (s : ParseState) (pa : ParsedArguments) : Prop :=
  (∃ n, pa.commonArgs = s.commonArgs ++ n) ∧
  (∃ n, pa.preprocessorArgs = s.preprocessorArgs ++ n) ∧
  (∀ p, s.inputLang = some p → pa.input = p.1) ∧
  (∃ w, ("obj", w) ∈ pa.outputs) ∧
  (s.colorMode ≠ .auto → pa.colorMode ≠ .auto)

example :
    parseArguments ["-c", "foo.c", "-o", "foo.o"] "." =
      .ok { input := "foo.c", language := .c, outputs := [("obj", "foo.o")],
            preprocessorArgs := [], commonArgs := [], extraHashFiles := [],
            colorMode := .auto, profileGenerate := false } := by decide

example :
    parseArguments ["-c", "foo.cxx", "-arch", "xyz", "-fabc", "-I", "include",
        "-o", "foo.o", "-include", "file"] "." =
      .ok { input := "foo.cxx", language := .cxx, outputs := [("obj", "foo.o")],
            preprocessorArgs := ["-Iinclude", "-include", "file"],
            commonArgs := ["-arch", "xyz", "-fabc"], extraHashFiles := [],
            colorMode := .auto, profileGenerate := false } := by decide

example :
    parseArguments ["-c", "foo.c", "-o", "foo.o", "-Xclang", "-load",
        "-Xclang", "plugin.so"] "." =
      .ok { input := "foo.c", language := .c, outputs := [("obj", "foo.o")],
            preprocessorArgs := [],
            commonArgs := ["-Xclang", "-load", "-Xclang", "plugin.so"],
            extraHashFiles := ["plugin.so"],
            colorMode := .auto, profileGenerate := false } := by decide

example :
    parseArguments ["-c", "foo.c", "-o", "foo.o", "-Xclang", "-load"] "." =
      .cannotCache "argument parse" (some "Unexpected end of args") := by decide

example :
    parseArguments ["-c", "foo.c", "-o", "foo.o", "-Xclang", "broken"] "." =
      .cannotCache "Can't handle Raw arguments with -Xclang" none := by decide

example :
    parseArguments ["-c", "foo.c", "-o", "foo.o", "-Xclang", "-broken"] "." =
      .cannotCache "Can't handle UnknownFlag arguments with -Xclang" none := by decide

example :
    parseArguments ["-c", "foo.c", "-fcxx-modules", "-o", "foo.o"] "." =
      .cannotCache "-fcxx-modules" none := by decide

example :
    parseArguments ["-c", "foo.c", "-fmodules", "-o", "foo.o"] "." =
      .cannotCache "-fmodules" none := by decide

/-- Helper: a boolean prefix test yields an append decomposition. -/
theorem exists_append_of_isPrefixOf :
    ∀ (p l : List Char), p.isPrefixOf l = true → ∃ u, p ++ u = l := by
  intro p
  induction p with
  | nil => exact fun l _ => ⟨l, rfl⟩
  | cons a as ih =>
    intro l h
    cases l with
    | nil => simp [List.isPrefixOf] at h
    | cons b bs =>
      simp only [List.isPrefixOf, Bool.and_eq_true, beq_iff_eq] at h
      obtain ⟨rfl, h2⟩ := h
      obtain ⟨u, hu⟩ := ih bs h2
      exact ⟨u, by rw [List.cons_append, hu]⟩

/-- Helper: a successfully applied wrapper-forward unit appends its raw
tokens to the common bucket and applies the inner flag's effect. -/
theorem xclangApply_ok (s s' : ParseState) (toks : List String) (sp : String)
    (d : ArgData) (val : Option String)
    (h : xclangApply s toks sp d val = .ok s') :
    s'.commonArgs = s.commonArgs ++ toks ∧ XEffect d val toks s s' := by
  cases d <;> simp only [xclangApply] at h <;>
    first
      | exact Except.noConfusion h
      | (injection h with h; subst h; exact ⟨rfl, by simp [XEffect]⟩)

/-- C3: classifying `-c foo.c -o foo.o -Xclang -load -Xclang plugin.so`
yields Ok, the common bucket ends with the four raw wrapper tokens verbatim,
and the extra-hash-files list is exactly `plugin.so`. -/
theorem parse_xclang_load_result :
    parseArguments ["-c", "foo.c", "-o", "foo.o", "-Xclang", "-load",
        "-Xclang", "plugin.so"] "." =
      .ok { input := "foo.c", language := .c, outputs := [("obj", "foo.o")],
            preprocessorArgs := [],
            commonArgs := ["-Xclang", "-load", "-Xclang", "plugin.so"],
            extraHashFiles := ["plugin.so"],
            colorMode := .auto, profileGenerate := false } ∧
    List.isSuffixOf ["-Xclang", "-load", "-Xclang", "plugin.so"]
      ["-Xclang", "-load", "-Xclang", "plugin.so"] = true ∧
    ["plugin.so"] = ["plugin.so"] := by
  refine ⟨by decide, by decide, rfl⟩

/-- C4: `-c foo.c -fcxx-modules -o foo.o` is CannotCache with reason exactly
`-fcxx-modules` and no detail; in general, a matched force-uncacheable flag
short-circuits immediately to CannotCache(flag spelling, none), whatever
tokens follow and whatever was already accumulated. -/
theorem parse_force_uncacheable_short_circuit :
    (parseArguments ["-c", "foo.c", "-fcxx-modules", "-o", "foo.o"] "." =
      .cannotCache "-fcxx-modules" none) ∧
    ∀ (t sp : String) (rest : List String) (s : ParseState),
      classifyTok t = .flagRes sp .TooHardFlag →
      loop (t :: rest) s = .cannotCache sp none := by
  refine ⟨by decide, ?_⟩
  intro t sp rest s h
  simp only [loop, h, applyFlag]

/-- Witness for C4 at the concrete flag `-fmodules`. -/
theorem parse_force_uncacheable_short_circuit_witness :
    classifyTok "-fmodules" = .flagRes "-fmodules" .TooHardFlag ∧
    loop ["-fmodules", "-o", "foo.o"] initState = .cannotCache "-fmodules" none :=
  ⟨by decide,
   parse_force_uncacheable_short_circuit.2 "-fmodules" "-fmodules"
     ["-o", "foo.o"] initState (by decide)⟩

/-- C5: an invocation ending in a value-requiring flag with the value token
missing is CannotCache("argument parse", some "Unexpected end of args"); in
particular `-c foo.c -o foo.o -Xclang -load`. -/
theorem parse_unexpected_end_of_args :
    (parseArguments ["-c", "foo.c", "-o", "foo.o", "-Xclang", "-load"] "." =
      .cannotCache "argument parse" (some "Unexpected end of args")) ∧
    ∀ (t sp : String) (d : ArgData) (s : ParseState),
      classifyTok t = .needsVal sp d →
      loop [t] s = .cannotCache "argument parse" (some "Unexpected end of args") := by
  refine ⟨by decide, ?_⟩
  intro t sp d s h
  simp only [loop, h]

/-- Witness for C5 at the concrete flag `-o` as final token. -/
theorem parse_unexpected_end_of_args_witness :
    classifyTok "-o" = .needsVal "-o" .Output ∧
    loop ["-o"] initState =
      .cannotCache "argument parse" (some "Unexpected end of args") :=
  ⟨by decide, parse_unexpected_end_of_args.2 "-o" "-o" .Output initState (by decide)⟩

/-- C6: a bare (non-flag) `-Xclang` value is CannotCache
"Can't handle Raw arguments with -Xclang", and a flag-like value matching no
rule is CannotCache "Can't handle UnknownFlag arguments with -Xclang". -/
theorem parse_xclang_raw_unknown :
    (∀ (v : String) (rest : List String) (s : ParseState),
      classifyTok v = .raw →
      loop ("-Xclang" :: v :: rest) s =
        .cannotCache "Can't handle Raw arguments with -Xclang" none) ∧
    (∀ (v : String) (rest : List String) (s : ParseState),
      classifyTok v = .unknown →
      loop ("-Xclang" :: v :: rest) s =
        .cannotCache "Can't handle UnknownFlag arguments with -Xclang" none) := by
  have hx : classifyTok "-Xclang" = .needsVal "-Xclang" .XClang := by decide
  constructor
  · intro v rest s h
    simp only [loop, hx, h]
    rfl
  · intro v rest s h
    simp only [loop, hx, h]
    rfl

/-- Witness for C6 at the concrete values `broken` and `-broken`. -/
theorem parse_xclang_raw_unknown_witness :
    (classifyTok "broken" = .raw ∧
      loop ["-Xclang", "broken"] initState =
        .cannotCache "Can't handle Raw arguments with -Xclang" none) ∧
    (classifyTok "-broken" = .unknown ∧
      loop ["-Xclang", "-broken"] initState =
        .cannotCache "Can't handle UnknownFlag arguments with -Xclang" none) :=
  ⟨⟨by decide, parse_xclang_raw_unknown.1 "broken" [] initState (by decide)⟩,
   ⟨by decide, parse_xclang_raw_unknown.2 "-broken" [] initState (by decide)⟩⟩

/-- C7: classifying `-c foo.cxx -arch xyz -fabc -I include -o foo.o -include
file` yields Ok with language C++, exactly one output entry obj → foo.o,
preprocessor bucket `["-Iinclude", "-include", "file"]` and common bucket
`["-arch", "xyz", "-fabc"]`; in general an unrecognized flag-like token is
appended to the common bucket instead of failing. -/
theorem parse_values_result :
    (parseArguments ["-c", "foo.cxx", "-arch", "xyz", "-fabc", "-I", "include",
        "-o", "foo.o", "-include", "file"] "." =
      .ok { input := "foo.cxx", language := .cxx, outputs := [("obj", "foo.o")],
            preprocessorArgs := ["-Iinclude", "-include", "file"],
            commonArgs := ["-arch", "xyz", "-fabc"], extraHashFiles := [],
            colorMode := .auto, profileGenerate := false }) ∧
    ∀ (t : String) (rest : List String) (s : ParseState),
      classifyTok t = .unknown →
      loop (t :: rest) s = loop rest { s with commonArgs := s.commonArgs ++ [t] } := by
  refine ⟨by decide, ?_⟩
  intro t rest s h
  simp only [loop, h]

/-- Witness for C7's general part at the concrete unknown flag `-fabc`. -/
theorem parse_values_result_witness :
    classifyTok "-fabc" = .unknown ∧
    loop ["-fabc"] initState =
      loop [] { initState with commonArgs := initState.commonArgs ++ ["-fabc"] } :=
  ⟨by decide, parse_values_result.2 "-fabc" [] initState (by decide)⟩

/-- C9: classification is a deterministic pure function of the raw argument
list and working directory — classifying the same sequence twice yields
identical outcomes. -/
theorem parse_deterministic :
    ∀ (args : List String) (cwd : String),
      parseArguments args cwd = parseArguments args cwd :=
  fun _ _ => rfl

/-- C1: when a wrapper-forward unit classifies successfully, the two (or
four) original raw tokens are appended verbatim, in their original order, to
the common-arguments bucket, and the inner flag's effect (extra hash file,
preprocessor-only replay, color or profile marking) is additionally applied
to the structured result. -/
theorem xclang_unit_verbatim_and_effect :
    (∀ (v sp : String) (d : ArgData) (rest : List String) (s s' : ParseState),
      classifyTok v = .flagRes sp d →
      xclangApply s ["-Xclang", v] sp d none = .ok s' →
      loop ("-Xclang" :: v :: rest) s = loop rest s' ∧
      s'.commonArgs = s.commonArgs ++ ["-Xclang", v] ∧
      XEffect d none ["-Xclang", v] s s') ∧
    (∀ (v w sp : String) (d : ArgData) (rest : List String) (s s' : ParseState),
      classifyTok v = .needsVal sp d →
      xclangApply s ["-Xclang", v, "-Xclang", w] sp d (some w) = .ok s' →
      loop ("-Xclang" :: v :: "-Xclang" :: w :: rest) s = loop rest s' ∧
      s'.commonArgs = s.commonArgs ++ ["-Xclang", v, "-Xclang", w] ∧
      XEffect d (some w) ["-Xclang", v, "-Xclang", w] s s') := by
  have hx : classifyTok "-Xclang" = .needsVal "-Xclang" .XClang := by decide
  constructor
  · intro v sp d rest s s' h h2
    refine ⟨?_, xclangApply_ok s s' ["-Xclang", v] sp d none h2⟩
    simp only [loop, hx, h, h2]
  · intro v w sp d rest s s' h h2
    refine ⟨?_, xclangApply_ok s s' ["-Xclang", v, "-Xclang", w] sp d (some w) h2⟩
    have hd : ("-Xclang" : String).data == ("-Xclang" : String).data := by decide
    simp only [loop, hx, h, hd, if_true, h2]

/-- Witness for C1 at the concrete wrapper units `-Xclang -verify` and
`-Xclang -load -Xclang plugin.so`. -/
theorem xclang_unit_verbatim_and_effect_witness :
    (loop ["-Xclang", "-verify"] initState =
      loop [] { inputLang := none, compilation := false, outputArg := none,
                preprocessorArgs := ["-Xclang", "-verify"],
                commonArgs := ["-Xclang", "-verify"], extraHashFiles := [],
                colorMode := .auto, profileGenerate := false } ∧
     ParseState.commonArgs
        { inputLang := none, compilation := false, outputArg := none,
          preprocessorArgs := ["-Xclang", "-verify"],
          commonArgs := ["-Xclang", "-verify"], extraHashFiles := [],
          colorMode := .auto, profileGenerate := false } =
       initState.commonArgs ++ ["-Xclang", "-verify"] ∧
     XEffect .PreprocessorArgumentFlag none ["-Xclang", "-verify"] initState
       { inputLang := none, compilation := false, outputArg := none,
         preprocessorArgs := ["-Xclang", "-verify"],
         commonArgs := ["-Xclang", "-verify"], extraHashFiles := [],
         colorMode := .auto, profileGenerate := false }) :=
  xclang_unit_verbatim_and_effect.1 "-verify" "-verify"
    .PreprocessorArgumentFlag [] initState
    { inputLang := none, compilation := false, outputArg := none,
      preprocessorArgs := ["-Xclang", "-verify"],
      commonArgs := ["-Xclang", "-verify"], extraHashFiles := [],
      colorMode := .auto, profileGenerate := false }
    (by decide) rfl

/-- C10 fails as stated: an invocation CAN contain a token beginning with
`-fprofile-instr-use` and still classify Ok, when that token is consumed as
the value of a preceding value-taking flag such as `-o`. -/
theorem profile_instr_use_value_position :
    parseArguments ["-c", "foo.c", "-o", "-fprofile-instr-use"] "." =
      .ok { input := "foo.c", language := .c,
            outputs := [("obj", "-fprofile-instr-use")],
            preprocessorArgs := [], commonArgs := [], extraHashFiles := [],
            colorMode := .auto, profileGenerate := false } := by
  decide

/-- C10 (amended): whenever a token beginning with `-fprofile-instr-use` is
processed in flag position — with or without a concatenated value — the rule
table resolves it to the too-hard rule and the outcome is
CannotCache("-fprofile-instr-use", none), whatever follows. -/
theorem profile_instr_use_flag_position :
    ∀ (t : String) (rest : List String) (s : ParseState),
      "-fprofile-instr-use".data.isPrefixOf t.data = true →
      loop (t :: rest) s = .cannotCache "-fprofile-instr-use" none := by
  intro t rest s h
  obtain ⟨l⟩ := t
  obtain ⟨u, hu⟩ := exists_append_of_isPrefixOf _ _ h
  have hl : l = "-fprofile-instr-use".data ++ u := hu.symm
  subst hl
  rfl

/-- Witness for C10's amended theorem, at the bare spelling and at a
concatenated value. -/
theorem profile_instr_use_flag_position_witness :
    ("-fprofile-instr-use".data.isPrefixOf "-fprofile-instr-use".data = true ∧
      loop ["-fprofile-instr-use"] initState =
        .cannotCache "-fprofile-instr-use" none) ∧
    ("-fprofile-instr-use".data.isPrefixOf "-fprofile-instr-use=prof.data".data = true ∧
      loop ["-fprofile-instr-use=prof.data", "-c"] initState =
        .cannotCache "-fprofile-instr-use" none) :=
  ⟨⟨by decide, profile_instr_use_flag_position "-fprofile-instr-use" [] initState (by decide)⟩,
   ⟨by decide, profile_instr_use_flag_position "-fprofile-instr-use=prof.data" ["-c"]
      initState (by decide)⟩⟩

/-- Helper: one selection step returns either the accumulator or the new
rule. -/
theorem pickBest_cases (t : String) (acc : Option Rule) (r : Rule) :
    pickBest t acc r = acc ∨ pickBest t acc r = some r := by
  cases hcx : compat t r with
  | false => simp [pickBest, hcx]
  | true =>
    cases acc with
    | none => simp [pickBest, hcx]
    | some b =>
      simp only [pickBest, hcx]
      split
      · split
        · exact .inr rfl
        · exact .inl rfl
      · exact .inl rfl

/-- Helper: the selected rule comes from the searched table. -/
theorem foldl_pickBest_mem :
    ∀ (l : List Rule) (t : String) (acc : Option Rule) (r : Rule),
      l.foldl (pickBest t) acc = some r → acc = some r ∨ r ∈ l := by
  intro l
  induction l with
  | nil => exact fun t acc r h => .inl h
  | cons x xs ih =>
    intro t acc r h
    rcases ih t (pickBest t acc x) r h with h' | h'
    · rcases pickBest_cases t acc x with hp | hp
      · rw [hp] at h'
        exact .inl h'
      · rw [hp] at h'
        injection h' with h'
        exact .inr (h' ▸ List.mem_cons_self x xs)
    · exact .inr (List.mem_cons_of_mem x h')

/-- Helper: a resolved rule is an entry of the layered tables. -/
theorem mem_of_findRule (t : String) (r : Rule) :
    findRule t = some r → r ∈ ARGS ++ gccARGS := by
  intro h
  rcases foldl_pickBest_mem (ARGS ++ gccARGS) t none r h with h' | h'
  · exact Option.noConfusion h'
  · exact h'

/-- Helper: a token classified with an in-token value comes from a
value-taking rule of the tables, with the rule's spelling and tag. -/
theorem classify_hasVal_rule (t sp v : String) (d : ArgData)
    (h : classifyTok t = .hasVal sp v d) :
    ∃ disp, Rule.takeArg sp disp d ∈ ARGS ++ gccARGS := by
  unfold classifyTok at h
  split at h
  · rcases hf : findRule t with _ | r <;> rw [hf] at h
    · exact TokClass.noConfusion h
    · have hr := mem_of_findRule t r hf
      cases r with
      | flag s d' => exact TokClass.noConfusion h
      | takeArg s disp d' =>
        cases disp with
        | separated => exact TokClass.noConfusion h
        | concatenated =>
          simp only [matchShape, TokClass.hasVal.injEq] at h
          obtain ⟨rfl, -, rfl⟩ := h
          exact ⟨_, hr⟩
        | canBeSeparated =>
          simp only [matchShape] at h
          split at h
          · exact TokClass.noConfusion h
          · simp only [TokClass.hasVal.injEq] at h
            obtain ⟨rfl, -, rfl⟩ := h
            exact ⟨_, hr⟩
        | canBeConcatenatedEq =>
          simp only [matchShape] at h
          split at h
          · exact TokClass.noConfusion h
          · simp only [TokClass.hasVal.injEq] at h
            obtain ⟨rfl, -, rfl⟩ := h
            exact ⟨_, hr⟩
  · exact TokClass.noConfusion h

/-- Helper: a token awaiting a separated value comes from a value-taking
rule of the tables, with the rule's spelling and tag. -/
theorem classify_needsVal_rule (t sp : String) (d : ArgData)
    (h : classifyTok t = .needsVal sp d) :
    ∃ disp, Rule.takeArg sp disp d ∈ ARGS ++ gccARGS := by
  unfold classifyTok at h
  split at h
  · rcases hf : findRule t with _ | r <;> rw [hf] at h
    · exact TokClass.noConfusion h
    · have hr := mem_of_findRule t r hf
      cases r with
      | flag s d' => exact TokClass.noConfusion h
      | takeArg s disp d' =>
        cases disp with
        | separated =>
          simp only [matchShape, TokClass.needsVal.injEq] at h
          obtain ⟨rfl, rfl⟩ := h
          exact ⟨_, hr⟩
        | concatenated => exact TokClass.noConfusion h
        | canBeSeparated =>
          simp only [matchShape] at h
          split at h
          · simp only [TokClass.needsVal.injEq] at h
            obtain ⟨rfl, rfl⟩ := h
            exact ⟨_, hr⟩
          · exact TokClass.noConfusion h
        | canBeConcatenatedEq =>
          simp only [matchShape] at h
          split at h
          · simp only [TokClass.needsVal.injEq] at h
            obtain ⟨rfl, rfl⟩ := h
            exact ⟨_, hr⟩
          · exact TokClass.noConfusion h
  · exact TokClass.noConfusion h

/-- Helper: no value-taking rule of the tables carries a color tag. -/
theorem no_color_takeArg (sp : String) (disp : ArgDisposition) (d : ArgData)
    (hmem : Rule.takeArg sp disp d ∈ ARGS ++ gccARGS)
    (hd : d = .DiagnosticsColorFlag ∨ d = .NoDiagnosticsColorFlag) : False := by
  rcases hd with rfl | rfl <;>
    simp [ARGS, gccARGS, List.mem_append, List.mem_cons] at hmem

/-- Helper: a matched no-value flag only grows the accumulator. -/
theorem applyFlag_StateLe (s s' : ParseState) (sp : String) (d : ArgData)
    (h : applyFlag s sp d = .ok s') : StateLe s s' := by
  cases d <;> simp only [applyFlag] at h <;>
    first
      | exact Except.noConfusion h
      | (injection h with h; subst h;
         exact ⟨⟨[], (List.append_nil _).symm⟩, ⟨[], (List.append_nil _).symm⟩,
           fun p hp => hp, fun hne => hne⟩)
      | (injection h with h; subst h;
         exact ⟨⟨[], (List.append_nil _).symm⟩, ⟨[], (List.append_nil _).symm⟩,
           fun p hp => hp, fun _ => by simp⟩)
      | (injection h with h; subst h;
         exact ⟨⟨[], (List.append_nil _).symm⟩, ⟨[sp], rfl⟩,
           fun p hp => hp, fun hne => hne⟩)
      | (injection h with h; subst h;
         exact ⟨⟨[sp], rfl⟩, ⟨[], (List.append_nil _).symm⟩,
           fun p hp => hp, fun hne => hne⟩)

/-- Helper: a matched value-taking flag only grows the accumulator. -/
theorem applyVal_StateLe (s s' : ParseState) (sp v : String) (norm : List String)
    (d : ArgData) (h : applyVal s sp v norm d = .ok s') : StateLe s s' := by
  cases d <;> simp only [applyVal] at h <;>
    first
      | exact Except.noConfusion h
      | (injection h with h; subst h;
         exact ⟨⟨[], (List.append_nil _).symm⟩, ⟨[], (List.append_nil _).symm⟩,
           fun p hp => hp, fun hne => hne⟩)
      | (injection h with h; subst h;
         exact ⟨⟨[], (List.append_nil _).symm⟩, ⟨norm, rfl⟩,
           fun p hp => hp, fun hne => hne⟩)
      | (injection h with h; subst h;
         exact ⟨⟨norm, rfl⟩, ⟨[], (List.append_nil _).symm⟩,
           fun p hp => hp, fun hne => hne⟩)

/-- Helper: a reinterpreted wrapper unit only grows the accumulator. -/
theorem xclangApply_StateLe (s s' : ParseState) (toks : List String)
    (sp : String) (d : ArgData) (val : Option String)
    (h : xclangApply s toks sp d val = .ok s') : StateLe s s' := by
  cases d <;> simp only [xclangApply] at h <;>
    first
      | exact Except.noConfusion h
      | (injection h with h; subst h;
         exact ⟨⟨toks, rfl⟩, ⟨[], (List.append_nil _).symm⟩,
           fun p hp => hp, fun hne => hne⟩)
      | (injection h with h; subst h;
         exact ⟨⟨toks, rfl⟩, ⟨toks, rfl⟩, fun p hp => hp, fun hne => hne⟩)
      | (injection h with h; subst h;
         exact ⟨⟨toks, rfl⟩, ⟨[], (List.append_nil _).symm⟩,
           fun p hp => hp, fun _ => by simp⟩)

/-- Helper: the growth relations compose. -/
theorem StateLe_PaFrom (s s' : ParseState) (pa : ParsedArguments)
    (h1 : StateLe s s') (h2 : PaFrom s' pa) : PaFrom s pa := by
  obtain ⟨⟨n1, hc1⟩, ⟨n2, hp1⟩, hi1, hcol1⟩ := h1
  obtain ⟨⟨m1, hc2⟩, ⟨m2, hp2⟩, hi2, hout, hcol2⟩ := h2
  refine ⟨⟨n1 ++ m1, ?_⟩, ⟨n2 ++ m2, ?_⟩, ?_, hout, ?_⟩
  · rw [hc2, hc1, List.append_assoc]
  · rw [hp2, hp1, List.append_assoc]
  · exact fun p hp => hi2 p (hi1 p hp)
  · exact fun hne => hcol2 (hcol1 hne)

/-- Helper: a flag that is not a color flag leaves the tri-state unchanged. -/
theorem applyFlag_color (s s' : ParseState) (sp : String) (d : ArgData)
    (h : applyFlag s sp d = .ok s') (h1 : d ≠ .DiagnosticsColorFlag)
    (h2 : d ≠ .NoDiagnosticsColorFlag) : s'.colorMode = s.colorMode := by
  cases d <;>
    first
      | exact absurd rfl h1
      | exact absurd rfl h2
      | (simp only [applyFlag] at h;
         first
           | exact Except.noConfusion h
           | (injection h with h; subst h; rfl))

/-- Helper: a value-taking unit leaves the tri-state unchanged. -/
theorem applyVal_color (s s' : ParseState) (sp v : String) (norm : List String)
    (d : ArgData) (h : applyVal s sp v norm d = .ok s') :
    s'.colorMode = s.colorMode := by
  cases d <;> simp only [applyVal] at h <;>
    first
      | exact Except.noConfusion h
      | (injection h with h; subst h; rfl)

/-- Helper: a wrapper unit with a non-color inner flag leaves the tri-state
unchanged. -/
theorem xclangApply_color (s s' : ParseState) (toks : List String)
    (sp : String) (d : ArgData) (val : Option String)
    (h : xclangApply s toks sp d val = .ok s') (h1 : d ≠ .DiagnosticsColorFlag)
    (h2 : d ≠ .NoDiagnosticsColorFlag) : s'.colorMode = s.colorMode := by
  cases d <;>
    first
      | exact absurd rfl h1
      | exact absurd rfl h2
      | (simp only [xclangApply] at h;
         first
           | exact Except.noConfusion h
           | (injection h with h; subst h; rfl))

/-- Helper: along a successful scan the final result only extends the
accumulator: buckets grow by appending, a recorded input survives, an object
output is always present, and a non-default tri-state survives. -/
theorem loop_ok_from : ∀ (args : List String) (s : ParseState)
    (pa : ParsedArguments), loop args s = .ok pa → PaFrom s pa := by
  intro args s
  induction args, s using loop.induct
  -- finish
  next s =>
    intro pa h
    unfold loop finish at h
    split at h
    · split at h
      · exact CompilerArguments.noConfusion h
      · next i l heq =>
        injection h with h
        subst h
        refine ⟨⟨[], (List.append_nil _).symm⟩, ⟨[], (List.append_nil _).symm⟩,
          ?_, ⟨s.outputArg.getD (replaceExt i "o"), by simp⟩, fun hne => hne⟩
        intro p hp
        rw [heq] at hp
        injection hp with hp
        rw [← hp]
    · exact CompilerArguments.noConfusion h
  -- raw token, second input file
  next s w rest hraw hsome =>
    intro pa h
    simp [loop, hraw, hsome] at h
  -- raw token, unknown extension
  next s w rest hraw hnsome hlang =>
    intro pa h
    simp [loop, hraw, hnsome, hlang] at h
  -- raw token recorded as input
  next s w rest hraw hnsome l hlang IH =>
    intro pa h
    simp only [loop, hraw, hnsome, hlang] at h
    refine StateLe_PaFrom _ _ _ ?_ (IH pa h)
    refine ⟨⟨[], (List.append_nil _).symm⟩, ⟨[], (List.append_nil _).symm⟩,
      ?_, fun hne => hne⟩
    intro p hp
    rw [hp] at hnsome
    exact absurd rfl hnsome
  -- unknown flag
  next s w rest hunk IH =>
    intro pa h
    simp only [loop, hunk] at h
    refine StateLe_PaFrom _ _ _ ?_ (IH pa h)
    exact ⟨⟨[w], rfl⟩, ⟨[], (List.append_nil _).symm⟩,
      fun p hp => hp, fun hne => hne⟩
  -- flag, force-uncacheable error
  next s w rest sp d hclass e happ =>
    intro pa h
    simp [loop, hclass, happ] at h
  -- flag, applied
  next s w rest sp d hclass s' happ IH =>
    intro pa h
    simp only [loop, hclass, happ] at h
    exact StateLe_PaFrom _ _ _ (applyFlag_StateLe s s' sp d happ) (IH pa h)
  -- in-token value, error
  next s w rest sp v d hclass e happ =>
    intro pa h
    simp [loop, hclass, happ] at h
  -- in-token value, applied
  next s w rest sp v d hclass s' happ IH =>
    intro pa h
    simp only [loop, hclass, happ] at h
    exact StateLe_PaFrom _ _ _ (applyVal_StateLe s s' sp v _ d happ) (IH pa h)
  -- value-requiring flag as last token
  next s w sp d hclass =>
    intro pa h
    simp [loop, hclass] at h
  -- wrapper with raw value
  next s w sp v rest hvraw hclass =>
    intro pa h
    simp [loop, hclass, hvraw] at h
  -- wrapper with unknown-flag value
  next s w sp v rest hvunk hclass =>
    intro pa h
    simp [loop, hclass, hvunk] at h
  -- wrapper, inner flag, error
  next s w sp v rest isp idd hv e hx hclass =>
    intro pa h
    simp [loop, hclass, hv, hx] at h
  -- wrapper, inner flag, applied
  next s w sp v rest isp idd hv s' hx hclass IH =>
    intro pa h
    simp only [loop, hclass, hv, hx] at h
    exact StateLe_PaFrom _ _ _ (xclangApply_StateLe s s' [sp, v] isp idd none hx)
      (IH pa h)
  -- wrapper, inner in-token value, error
  next s w sp v rest isp iv idd hv e hx hclass =>
    intro pa h
    simp [loop, hclass, hv, hx] at h
  -- wrapper, inner in-token value, applied
  next s w sp v rest isp iv idd hv s' hx hclass IH =>
    intro pa h
    simp only [loop, hclass, hv, hx] at h
    exact StateLe_PaFrom _ _ _
      (xclangApply_StateLe s s' [sp, v] isp idd (some iv) hx) (IH pa h)
  -- wrapper, inner needs value, tokens exhausted
  next s w sp v isp idd hv hclass =>
    intro pa h
    simp [loop, hclass, hv] at h
  -- wrapper pair, tokens exhausted after repeated wrapper
  next s w sp v isp idd hv x hbeq hclass =>
    intro pa h
    simp [loop, hclass, hv, hbeq] at h
  -- wrapper pair, error
  next s w sp v isp idd hv x hbeq y rest e hx hclass =>
    intro pa h
    simp [loop, hclass, hv, hbeq, hx] at h
  -- wrapper pair, applied
  next s w sp v isp idd hv x hbeq y rest s' hx hclass IH =>
    intro pa h
    simp only [loop, hclass, hv, hbeq, if_true, hx] at h
    exact StateLe_PaFrom _ _ _
      (xclangApply_StateLe s s' [sp, v, x, y] isp idd (some y) hx) (IH pa h)
  -- wrapper pair, repeated wrapper missing
  next s w sp v isp idd hv x rest hnbeq hclass =>
    intro pa h
    simp [loop, hclass, hv, hnbeq] at h
  -- ordinary separated value, error
  next s w sp v rest d hdx e hclass happ =>
    intro pa h
    cases d <;>
      first
        | exact absurd rfl hdx
        | simp [loop, hclass, happ] at h
  -- ordinary separated value, applied
  next s w sp v rest d hdx s' hclass happ IH =>
    intro pa h
    cases d <;>
      first
        | exact absurd rfl hdx
        | (simp only [loop, hclass, happ] at h;
           exact StateLe_PaFrom _ _ _ (applyVal_StateLe _ _ _ _ _ _ happ) (IH pa h))

/-- Helper: the normalized form of a value unit is never empty. -/
theorem normTok_ne_nil (sp v : String) : normTok sp v ≠ [] := by
  unfold normTok
  split <;> simp

/-- Helper: tokens appended to the common bucket at some step are an infix
of the final common bucket. -/
theorem common_infix_from (rest : List String) (s' : ParseState)
    (pa : ParsedArguments) (n base : List String)
    (h : loop rest s' = .ok pa) (hs : s'.commonArgs = base ++ n) :
    n <:+: pa.commonArgs := by
  obtain ⟨m, hm⟩ := (loop_ok_from _ _ _ h).1
  exact ⟨base, m, by rw [hm, hs, List.append_assoc]⟩

/-- Helper: tokens appended to the preprocessor bucket at some step are an
infix of the final preprocessor bucket. -/
theorem preproc_infix_from (rest : List String) (s' : ParseState)
    (pa : ParsedArguments) (n base : List String)
    (h : loop rest s' = .ok pa) (hs : s'.preprocessorArgs = base ++ n) :
    n <:+: pa.preprocessorArgs := by
  obtain ⟨m, hm⟩ := (loop_ok_from _ _ _ h).2.1
  exact ⟨base, m, by rw [hm, hs, List.append_assoc]⟩

/-- Helper: along a successful scan in which no processed token resolves to
a color-diagnostics flag, the tri-state is unchanged. -/
theorem loop_color_preserve : ∀ (args : List String) (s : ParseState),
    (∀ t ∈ args, isColorTok t = false) →
    ∀ pa, loop args s = .ok pa → pa.colorMode = s.colorMode := by
  intro args s
  induction args, s using loop.induct
  next s =>
    intro hc pa h
    unfold loop finish at h
    split at h
    · split at h
      · exact CompilerArguments.noConfusion h
      · injection h with h
        subst h
        rfl
    · exact CompilerArguments.noConfusion h
  next s w rest hraw hsome =>
    intro hc pa h
    simp [loop, hraw, hsome] at h
  next s w rest hraw hnsome hlang =>
    intro hc pa h
    simp [loop, hraw, hnsome, hlang] at h
  next s w rest hraw hnsome l hlang IH =>
    intro hc pa h
    simp only [loop, hraw, hnsome, hlang] at h
    exact IH (fun t ht => hc t (List.mem_cons_of_mem _ ht)) pa h
  next s w rest hunk IH =>
    intro hc pa h
    simp only [loop, hunk] at h
    exact IH (fun t ht => hc t (List.mem_cons_of_mem _ ht)) pa h
  next s w rest sp d hclass e happ =>
    intro hc pa h
    simp [loop, hclass, happ] at h
  next s w rest sp d hclass s' happ IH =>
    intro hc pa h
    simp only [loop, hclass, happ] at h
    have hw := hc w (List.mem_cons_self _ _)
    have h1 : d ≠ .DiagnosticsColorFlag := by
      rintro rfl
      simp [isColorTok, hclass] at hw
    have h2 : d ≠ .NoDiagnosticsColorFlag := by
      rintro rfl
      simp [isColorTok, hclass] at hw
    rw [IH (fun t ht => hc t (List.mem_cons_of_mem _ ht)) pa h,
      applyFlag_color s s' sp d happ h1 h2]
  next s w rest sp v d hclass e happ =>
    intro hc pa h
    simp [loop, hclass, happ] at h
  next s w rest sp v d hclass s' happ IH =>
    intro hc pa h
    simp only [loop, hclass, happ] at h
    rw [IH (fun t ht => hc t (List.mem_cons_of_mem _ ht)) pa h,
      applyVal_color s s' sp v _ d happ]
  next s w sp d hclass =>
    intro hc pa h
    simp [loop, hclass] at h
  next s w sp v rest hvraw hclass =>
    intro hc pa h
    simp [loop, hclass, hvraw] at h
  next s w sp v rest hvunk hclass =>
    intro hc pa h
    simp [loop, hclass, hvunk] at h
  next s w sp v rest isp idd hv e hx hclass =>
    intro hc pa h
    simp [loop, hclass, hv, hx] at h
  next s w sp v rest isp idd hv s' hx hclass IH =>
    intro hc pa h
    simp only [loop, hclass, hv, hx] at h
    have hw := hc v (by simp)
    have h1 : idd ≠ .DiagnosticsColorFlag := by
      rintro rfl
      simp [isColorTok, hv] at hw
    have h2 : idd ≠ .NoDiagnosticsColorFlag := by
      rintro rfl
      simp [isColorTok, hv] at hw
    rw [IH (fun t ht => hc t (by simp [ht])) pa h,
      xclangApply_color s s' [sp, v] isp idd none hx h1 h2]
  next s w sp v rest isp iv idd hv e hx hclass =>
    intro hc pa h
    simp [loop, hclass, hv, hx] at h
  next s w sp v rest isp iv idd hv s' hx hclass IH =>
    intro hc pa h
    simp only [loop, hclass, hv, hx] at h
    obtain ⟨disp, hmem⟩ := classify_hasVal_rule v isp iv idd hv
    have h1 : idd ≠ .DiagnosticsColorFlag :=
      fun hEq => no_color_takeArg isp disp idd hmem (.inl hEq)
    have h2 : idd ≠ .NoDiagnosticsColorFlag :=
      fun hEq => no_color_takeArg isp disp idd hmem (.inr hEq)
    rw [IH (fun t ht => hc t (by simp [ht])) pa h,
      xclangApply_color s s' [sp, v] isp idd (some iv) hx h1 h2]
  next s w sp v isp idd hv hclass =>
    intro hc pa h
    simp [loop, hclass, hv] at h
  next s w sp v isp idd hv x hbeq hclass =>
    intro hc pa h
    simp [loop, hclass, hv, hbeq] at h
  next s w sp v isp idd hv x hbeq y rest e hx hclass =>
    intro hc pa h
    simp [loop, hclass, hv, hbeq, hx] at h
  next s w sp v isp idd hv x hbeq y rest s' hx hclass IH =>
    intro hc pa h
    simp only [loop, hclass, hv, hbeq, if_true, hx] at h
    obtain ⟨disp, hmem⟩ := classify_needsVal_rule v isp idd hv
    have h1 : idd ≠ .DiagnosticsColorFlag :=
      fun hEq => no_color_takeArg isp disp idd hmem (.inl hEq)
    have h2 : idd ≠ .NoDiagnosticsColorFlag :=
      fun hEq => no_color_takeArg isp disp idd hmem (.inr hEq)
    rw [IH (fun t ht => hc t (by simp [ht])) pa h,
      xclangApply_color s s' [sp, v, x, y] isp idd (some y) hx h1 h2]
  next s w sp v isp idd hv x rest hnbeq hclass =>
    intro hc pa h
    simp [loop, hclass, hv, hnbeq] at h
  next s w sp v rest d hdx e hclass happ =>
    intro hc pa h
    cases d <;>
      first
        | exact absurd rfl hdx
        | simp [loop, hclass, happ] at h
  next s w sp v rest d hdx s' hclass happ IH =>
    intro hc pa h
    cases d <;>
      first
        | exact absurd rfl hdx
        | (simp only [loop, hclass, happ] at h;
           rw [IH (fun t ht => hc t (by simp [ht])) pa h,
             applyVal_color _ _ _ _ _ _ happ])

/-- Helper: a successful scan decomposes the processed tokens into
consecutive units, each accounted for in the structured result. -/
theorem loop_ok_units : ∀ (args : List String) (s : ParseState)
    (pa : ParsedArguments), loop args s = .ok pa →
    ∃ us : List UnitRec, (us.map UnitRec.raw).flatten = args ∧ ∀ u ∈ us, RepOf pa u := by
  intro args s
  induction args, s using loop.induct
  next s =>
    intro pa h
    exact ⟨[], by simp, by simp⟩
  next s w rest hraw hsome =>
    intro pa h
    simp [loop, hraw, hsome] at h
  next s w rest hraw hnsome hlang =>
    intro pa h
    simp [loop, hraw, hnsome, hlang] at h
  next s w rest hraw hnsome l hlang IH =>
    intro pa h
    simp only [loop, hraw, hnsome, hlang] at h
    obtain ⟨us, hj, hr⟩ := IH pa h
    refine ⟨⟨[w], []⟩ :: us, by simp [hj], ?_⟩
    intro u hu
    rcases List.mem_cons.mp hu with rfl | hu'
    · exact .inr (.inl ⟨w, rfl, (loop_ok_from _ _ _ h).2.2.1 (w, l) rfl⟩)
    · exact hr u hu'
  next s w rest hunk IH =>
    intro pa h
    simp only [loop, hunk] at h
    obtain ⟨us, hj, hr⟩ := IH pa h
    refine ⟨⟨[w], [w]⟩ :: us, by simp [hj], ?_⟩
    intro u hu
    rcases List.mem_cons.mp hu with rfl | hu'
    · exact .inl ⟨by simp,
        .inl (common_infix_from rest _ pa [w] s.commonArgs h rfl)⟩
    · exact hr u hu'
  next s w rest sp d hclass e happ =>
    intro pa h
    simp [loop, hclass, happ] at h
  next s w rest sp d hclass s' happ IH =>
    intro pa h
    simp only [loop, hclass, happ] at h
    obtain ⟨us, hj, hr⟩ := IH pa h
    cases d <;>
      first
        | (simp only [applyFlag] at happ
           first
             | done
             | exact Except.noConfusion happ)
        | -- the compilation marker
          (simp only [applyFlag, Except.ok.injEq] at happ
           subst happ
           refine ⟨⟨[w], []⟩ :: us, by simp [hj], ?_⟩
           intro u hu
           rcases List.mem_cons.mp hu with rfl | hu'
           · exact .inr (.inr (.inr (.inl ⟨w, sp, rfl, hclass⟩)))
           · exact hr u hu')
        | -- the color-on flag
          (simp only [applyFlag, Except.ok.injEq] at happ
           subst happ
           have hcol : pa.colorMode ≠ .auto :=
             (loop_ok_from _ _ _ h).2.2.2.2 (fun hEq => ColorMode.noConfusion hEq)
           refine ⟨⟨[w], []⟩ :: us, by simp [hj], ?_⟩
           intro u hu
           rcases List.mem_cons.mp hu with rfl | hu'
           · exact .inr (.inr (.inr (.inr ⟨w, sp, _, rfl, hclass, .inl rfl, hcol⟩)))
           · exact hr u hu')
        | -- the color-off flag
          (simp only [applyFlag, Except.ok.injEq] at happ
           subst happ
           have hcol : pa.colorMode ≠ .auto :=
             (loop_ok_from _ _ _ h).2.2.2.2 (fun hEq => ColorMode.noConfusion hEq)
           refine ⟨⟨[w], []⟩ :: us, by simp [hj], ?_⟩
           intro u hu
           rcases List.mem_cons.mp hu with rfl | hu'
           · exact .inr (.inr (.inr (.inr ⟨w, sp, _, rfl, hclass, .inr rfl, hcol⟩)))
           · exact hr u hu')
        | -- a preprocessor-only flag
          (simp only [applyFlag, Except.ok.injEq] at happ
           subst happ
           refine ⟨⟨[w], [sp]⟩ :: us, by simp [hj], ?_⟩
           intro u hu
           rcases List.mem_cons.mp hu with rfl | hu'
           · exact .inl ⟨by simp,
               .inr (preproc_infix_from rest _ pa [sp] s.preprocessorArgs h rfl)⟩
           · exact hr u hu')
        | -- a common-bucket flag
          (simp only [applyFlag, Except.ok.injEq] at happ
           subst happ
           refine ⟨⟨[w], [sp]⟩ :: us, by simp [hj], ?_⟩
           intro u hu
           rcases List.mem_cons.mp hu with rfl | hu'
           · exact .inl ⟨by simp,
               .inl (common_infix_from rest _ pa [sp] s.commonArgs h rfl)⟩
           · exact hr u hu')
  next s w rest sp v d hclass e happ =>
    intro pa h
    simp [loop, hclass, happ] at h
  next s w rest sp v d hclass s' happ IH =>
    intro pa h
    simp only [loop, hclass, happ] at h
    obtain ⟨us, hj, hr⟩ := IH pa h
    cases d <;>
      first
        | (simp only [applyVal] at happ
           first
             | done
             | exact Except.noConfusion happ)
        | -- an output unit carried in a single token
          (simp only [applyVal, Except.ok.injEq] at happ
           subst happ
           refine ⟨⟨[w], []⟩ :: us, by simp [hj], ?_⟩
           intro u hu
           rcases List.mem_cons.mp hu with rfl | hu'
           · exact .inr (.inr (.inl ⟨w, by simp, ⟨sp, .inr ⟨v, hclass⟩⟩,
               (loop_ok_from _ _ _ h).2.2.2.1⟩))
           · exact hr u hu')
        | -- a preprocessor value unit
          (simp only [applyVal, Except.ok.injEq] at happ
           subst happ
           refine ⟨⟨[w], normTok sp v⟩ :: us, by simp [hj], ?_⟩
           intro u hu
           rcases List.mem_cons.mp hu with rfl | hu'
           · exact .inl ⟨normTok_ne_nil sp v,
               .inr (preproc_infix_from rest _ pa (normTok sp v)
                 s.preprocessorArgs h rfl)⟩
           · exact hr u hu')
        | -- a common value unit
          (simp only [applyVal, Except.ok.injEq] at happ
           subst happ
           refine ⟨⟨[w], normTok sp v⟩ :: us, by simp [hj], ?_⟩
           intro u hu
           rcases List.mem_cons.mp hu with rfl | hu'
           · exact .inl ⟨normTok_ne_nil sp v,
               .inl (common_infix_from rest _ pa (normTok sp v)
                 s.commonArgs h rfl)⟩
           · exact hr u hu')
  next s w sp d hclass =>
    intro pa h
    simp [loop, hclass] at h
  next s w sp v rest hvraw hclass =>
    intro pa h
    simp [loop, hclass, hvraw] at h
  next s w sp v rest hvunk hclass =>
    intro pa h
    simp [loop, hclass, hvunk] at h
  next s w sp v rest isp idd hv e hx hclass =>
    intro pa h
    simp [loop, hclass, hv, hx] at h
  next s w sp v rest isp idd hv s' hx hclass IH =>
    intro pa h
    simp only [loop, hclass, hv, hx] at h
    obtain ⟨us, hj, hr⟩ := IH pa h
    refine ⟨⟨[w, v], [sp, v]⟩ :: us, by simp [hj], ?_⟩
    intro u hu
    rcases List.mem_cons.mp hu with rfl | hu'
    · exact .inl ⟨by simp,
        .inl (common_infix_from rest _ pa [sp, v] s.commonArgs h
          (xclangApply_ok s s' [sp, v] isp idd none hx).1)⟩
    · exact hr u hu'
  next s w sp v rest isp iv idd hv e hx hclass =>
    intro pa h
    simp [loop, hclass, hv, hx] at h
  next s w sp v rest isp iv idd hv s' hx hclass IH =>
    intro pa h
    simp only [loop, hclass, hv, hx] at h
    obtain ⟨us, hj, hr⟩ := IH pa h
    refine ⟨⟨[w, v], [sp, v]⟩ :: us, by simp [hj], ?_⟩
    intro u hu
    rcases List.mem_cons.mp hu with rfl | hu'
    · exact .inl ⟨by simp,
        .inl (common_infix_from rest _ pa [sp, v] s.commonArgs h
          (xclangApply_ok s s' [sp, v] isp idd (some iv) hx).1)⟩
    · exact hr u hu'
  next s w sp v isp idd hv hclass =>
    intro pa h
    simp [loop, hclass, hv] at h
  next s w sp v isp idd hv x hbeq hclass =>
    intro pa h
    simp [loop, hclass, hv, hbeq] at h
  next s w sp v isp idd hv x hbeq y rest e hx hclass =>
    intro pa h
    simp [loop, hclass, hv, hbeq, hx] at h
  next s w sp v isp idd hv x hbeq y rest s' hx hclass IH =>
    intro pa h
    simp only [loop, hclass, hv, hbeq, if_true, hx] at h
    obtain ⟨us, hj, hr⟩ := IH pa h
    refine ⟨⟨[w, v, x, y], [sp, v, x, y]⟩ :: us, by simp [hj], ?_⟩
    intro u hu
    rcases List.mem_cons.mp hu with rfl | hu'
    · exact .inl ⟨by simp,
        .inl (common_infix_from rest _ pa [sp, v, x, y] s.commonArgs h
          (xclangApply_ok s s' [sp, v, x, y] isp idd (some y) hx).1)⟩
    · exact hr u hu'
  next s w sp v isp idd hv x rest hnbeq hclass =>
    intro pa h
    simp [loop, hclass, hv, hnbeq] at h
  next s w sp v rest d hdx e hclass happ =>
    intro pa h
    cases d <;>
      first
        | exact absurd rfl hdx
        | simp [loop, hclass, happ] at h
  next s w sp v rest d hdx s' hclass happ IH =>
    intro pa h
    cases d <;>
      first
        | exact absurd rfl hdx
        | (simp only [applyVal] at happ
           first
             | done
             | exact Except.noConfusion happ)
        | -- the output unit
          (simp only [loop, hclass, happ] at h
           obtain ⟨us, hj, hr⟩ := IH pa h
           simp only [applyVal, Except.ok.injEq] at happ
           subst happ
           refine ⟨⟨[w, v], []⟩ :: us, by simp [hj], ?_⟩
           intro u hu
           rcases List.mem_cons.mp hu with rfl | hu'
           · exact .inr (.inr (.inl ⟨w, by simp, ⟨sp, .inl hclass⟩,
               (loop_ok_from _ _ _ h).2.2.2.1⟩))
           · exact hr u hu')
        | -- a preprocessor value unit
          (simp only [loop, hclass, happ] at h
           obtain ⟨us, hj, hr⟩ := IH pa h
           simp only [applyVal, Except.ok.injEq] at happ
           subst happ
           refine ⟨⟨[w, v], normTok sp v⟩ :: us, by simp [hj], ?_⟩
           intro u hu
           rcases List.mem_cons.mp hu with rfl | hu'
           · exact .inl ⟨normTok_ne_nil sp v,
               .inr (preproc_infix_from rest _ pa (normTok sp v)
                 s.preprocessorArgs h rfl)⟩
           · exact hr u hu')
        | -- a common value unit
          (simp only [loop, hclass, happ] at h
           obtain ⟨us, hj, hr⟩ := IH pa h
           simp only [applyVal, Except.ok.injEq] at happ
           subst happ
           refine ⟨⟨[w, v], normTok sp v⟩ :: us, by simp [hj], ?_⟩
           intro u hu
           rcases List.mem_cons.mp hu with rfl | hu'
           · exact .inl ⟨normTok_ne_nil sp v,
               .inl (common_infix_from rest _ pa (normTok sp v)
                 s.commonArgs h rfl)⟩
           · exact hr u hu')

/-- C2 fails as stated: in the Ok classification of `-c foo.c -o foo.o` the
consumed token `-c` appears in none of the enumerated buckets (input file,
output map, preprocessor arguments, common arguments) and is not part of a
multi-token unit. -/
theorem token_buckets_counterexample :
    parseArguments ["-c", "foo.c", "-o", "foo.o"] "." =
      .ok { input := "foo.c", language := .c, outputs := [("obj", "foo.o")],
            preprocessorArgs := [], commonArgs := [], extraHashFiles := [],
            colorMode := .auto, profileGenerate := false } ∧
    ¬ InBuckets "-c"
      { input := "foo.c", language := .c, outputs := [("obj", "foo.o")],
        preprocessorArgs := [], commonArgs := [], extraHashFiles := [],
        colorMode := .auto, profileGenerate := false } := by
  refine ⟨by decide, ?_⟩
  unfold InBuckets
  decide

/-- C2 (amended): for every token sequence classified Ok, the consumed
tokens decompose into consecutive units, and every unit is accounted for in
the result: its contributed tokens are an infix of the common or
preprocessor bucket, or it is the recorded input file, an output unit
reflected by the output map (later occurrences superseding earlier ones), the
compilation marker (whose effect is the Ok compile outcome itself), or a
color flag reflected in the non-default tri-state; no token is silently
dropped. -/
theorem token_accounting :
    ∀ (args : List String) (cwd : String) (pa : ParsedArguments),
      parseArguments args cwd = .ok pa →
      ∃ us : List UnitRec, (us.map UnitRec.raw).flatten = args ∧
        ∀ u ∈ us, RepOf pa u :=
  fun args _cwd pa h => loop_ok_units args initState pa h

/-- Witness for C2's amended theorem at `-c foo.c -o foo.o`. -/
theorem token_accounting_witness :
    ∃ us : List UnitRec,
      (us.map UnitRec.raw).flatten = ["-c", "foo.c", "-o", "foo.o"] ∧
      ∀ u ∈ us,
        RepOf
          ({ input := "foo.c", language := .c, outputs := [("obj", "foo.o")],
             preprocessorArgs := [], commonArgs := [], extraHashFiles := [],
             colorMode := .auto, profileGenerate := false } : ParsedArguments)
          u :=
  token_accounting ["-c", "foo.c", "-o", "foo.o"] "."
    { input := "foo.c", language := .c, outputs := [("obj", "foo.o")],
      preprocessorArgs := [], commonArgs := [], extraHashFiles := [],
      colorMode := .auto, profileGenerate := false } (by decide)

/-- C8: for Ok classifications the diagnostics tri-state is On after
`-fcolor-diagnostics`, Off after `-fno-color-diagnostics`, Auto with neither
(concretely on `-c foo.c -o foo.o`); each matched color flag overwrites the
tri-state, so the last one wins, and a scan in which no processed token
resolves to a color flag leaves the tri-state unchanged. -/
theorem color_mode_tri_state :
    (parseArguments ["-c", "foo.c", "-o", "foo.o", "-fcolor-diagnostics"] "." =
      .ok { input := "foo.c", language := .c, outputs := [("obj", "foo.o")],
            preprocessorArgs := [], commonArgs := [], extraHashFiles := [],
            colorMode := .on, profileGenerate := false }) ∧
    (parseArguments ["-c", "foo.c", "-o", "foo.o", "-fno-color-diagnostics"] "." =
      .ok { input := "foo.c", language := .c, outputs := [("obj", "foo.o")],
            preprocessorArgs := [], commonArgs := [], extraHashFiles := [],
            colorMode := .off, profileGenerate := false }) ∧
    (parseArguments ["-c", "foo.c", "-o", "foo.o"] "." =
      .ok { input := "foo.c", language := .c, outputs := [("obj", "foo.o")],
            preprocessorArgs := [], commonArgs := [], extraHashFiles := [],
            colorMode := .auto, profileGenerate := false }) ∧
    (∀ (rest : List String) (s : ParseState),
      loop ("-fcolor-diagnostics" :: rest) s =
        loop rest { s with colorMode := .on }) ∧
    (∀ (rest : List String) (s : ParseState),
      loop ("-fno-color-diagnostics" :: rest) s =
        loop rest { s with colorMode := .off }) ∧
    (∀ (args : List String) (s : ParseState),
      (∀ t ∈ args, isColorTok t = false) →
      ∀ pa, loop args s = .ok pa → pa.colorMode = s.colorMode) := by
  refine ⟨by decide, by decide, by decide, ?_, ?_, loop_color_preserve⟩
  · intro rest s
    have hcd : classifyTok "-fcolor-diagnostics" =
        .flagRes "-fcolor-diagnostics" .DiagnosticsColorFlag := by decide
    simp only [loop, hcd, applyFlag]
  · intro rest s
    have hcd : classifyTok "-fno-color-diagnostics" =
        .flagRes "-fno-color-diagnostics" .NoDiagnosticsColorFlag := by decide
    simp only [loop, hcd, applyFlag]

/-- Witness for C8's preservation part at `-c foo.c -o foo.o`. -/
theorem color_mode_tri_state_witness :
    (∀ t ∈ (["-c", "foo.c", "-o", "foo.o"] : List String),
      isColorTok t = false) ∧
    ParsedArguments.colorMode
        { input := "foo.c", language := .c, outputs := [("obj", "foo.o")],
          preprocessorArgs := [], commonArgs := [], extraHashFiles := [],
          colorMode := .auto, profileGenerate := false } =
      initState.colorMode :=
  ⟨by decide,
   color_mode_tri_state.2.2.2.2.2 ["-c", "foo.c", "-o", "foo.o"] initState
     (by decide)
     { input := "foo.c", language := .c, outputs := [("obj", "foo.o")],
       preprocessorArgs := [], commonArgs := [], extraHashFiles := [],
       colorMode := .auto, profileGenerate := false } (by decide)⟩

end Sccache
